import Mathlib

/-!
Verification of the CatBoost `model_perftest` benchmark driver
(`catboost/tools/model_perftest/lib/main.cpp`).

The C++ code is shallowly embedded below.  Floating-point values (feature
values, elapsed times, model outputs) are modelled as exact rationals `ℚ`;
machine `size_t` indices are `Nat`.  Fallible operations (`CB_ENSURE`,
`TMap::at`, exception propagation) are modelled with `Except`.  The
perftest-module interface (`perftest_module.h`, not part of the translated
unit) is modelled as a structure of the functions `DoMain` actually calls:
`GetName`, `SupportsLayout`, `GetComparisonPriority`, `Do`; the factory's
`Construct` is an `Except`-valued parameter.
-/

namespace ModelPerftest

/-- `IPerftestModule::EPerftestModuleDataLayout`. -/
inductive Layout
  | objectsFirst
  | featuresFirst
deriving DecidableEq, Repr

/-! ## `TTimingResult` (timing aggregator)

`Times` is the sample list; `Add` appends.  `Min`/`Max`/`Mean` are modelled
on the sample list directly (the C++ versions are undefined on an empty
list; the defaults chosen here are never relied upon by a theorem). -/

def timingMin : List ℚ → ℚ
  | [] => 0
  | t :: ts => ts.foldl min t

def timingMax : List ℚ → ℚ
  | [] => 0
  | t :: ts => ts.foldl max t

def timingMean (ts : List ℚ) : ℚ := ts.sum / ts.length

/-! ## `TResults` (results registry)

`TMap<TString, THolder<TTimingResult>>` is modelled as an association list
from names to sample lists.  (`TMap` iterates in sorted key order; only key
membership and per-key sample lists matter to the claims below, so the
list's own order is not used.)  `updateResult` is `TResults::UpdateResult`:
look up or lazily create the entry for `name`, then append `time`. -/

abbrev ResultsMap := List (String × List ℚ)

def updateResult (m : ResultsMap) (name : String) (time : ℚ) : ResultsMap :=
  match m with
  | [] => [(name, [time])]
  | (k, ts) :: rest =>
      if k = name then (k, ts ++ [time]) :: rest
      else (k, ts) :: updateResult rest name time

def findResult (m : ResultsMap) (name : String) : Option (List ℚ) :=
  match m with
  | [] => none
  | (k, ts) :: rest => if k = name then some ts else findResult rest name

structure TResults where
  Results : ResultsMap
  BaseResultName : String
deriving DecidableEq, Repr

/-- One rendered line of the report: name with (min, max, mean). -/
def statsOf (ts : List ℚ) : ℚ × ℚ × ℚ := (timingMin ts, timingMax ts, timingMean ts)

/-- `TResults::OutputResults`: if `BaseResultName` is set (non-empty
`TString` converts to `true`), `Results.at(BaseResultName)` throws when the
key is absent (modelled as `Except.error`); otherwise the baseline is
rendered first, then every other entry. -/
def TResults.outputResults (r : TResults) : Except String (List (String × ℚ × ℚ × ℚ)) :=
  if r.BaseResultName ≠ "" then
    match findResult r.Results r.BaseResultName with
    | none => Except.error "TMap::at: key not found"
    | some baseTimes =>
        Except.ok ((r.BaseResultName, statsOf baseTimes) ::
          (r.Results.filter (fun p => !(p.1 = r.BaseResultName : Bool))).map
            (fun p => (p.1, statsOf p.2)))
  else
    Except.ok (r.Results.map (fun p => (p.1, statsOf p.2)))

/-- `main`: `DoMain` runs inside a future; an exception escaping
`OutputResults` is rethrown by `GetValueSync`, caught at top level, and the
process returns `-1`. -/
def mainExitCode (r : TResults) : Int :=
  match r.outputResults with
  | Except.ok _ => 0
  | Except.error _ => -1

/-! ## `TCanonData` (canon validator) -/

/-- `TCanonData::Epsilon` (the source writes the constant `1e-6`). -/
def Epsilon : ℚ := 1 / 1000000

/-- One line printed by `LabeledDump(blockId, i, blockResult[i], ref[i],
blockResult[i] - ref[i])`. -/
structure TDiag where
  blockId : Nat
  index : Nat
  observed : ℚ
  reference : ℚ
  delta : ℚ
deriving DecidableEq, Repr

/-- The diagnostics emitted by the comparison loop of `CheckOrSet`:
one line for each index `i` with `abs (blockResult[i] - ref[i]) > Epsilon`. -/
def diagsFor (blockId : Nat) (blockResult ref : List ℚ) : List TDiag :=
  (List.range blockResult.length).filterMap (fun i =>
    if Epsilon < |blockResult.getD i 0 - ref.getD i 0| then
      some ⟨blockId, i, blockResult.getD i 0, ref.getD i 0,
            blockResult.getD i 0 - ref.getD i 0⟩
    else none)

structure TCanonData where
  Results : List (List ℚ)
deriving DecidableEq, Repr

/-- `TCanonData::CheckOrSet`: if the stored vector for `blockId` is empty,
store `blockResult`; then `CB_ENSURE` the sizes match (fatal otherwise,
modelled as `Except.error`), and emit one non-fatal diagnostic per element
diverging by more than `Epsilon`.  Returns the new state and the emitted
diagnostics. -/
def TCanonData.checkOrSet (c : TCanonData) (blockId : Nat) (blockResult : List ℚ) :
    Except String (TCanonData × List TDiag) :=
  let stored := c.Results.getD blockId []
  let c2 : TCanonData := if stored.isEmpty then ⟨c.Results.set blockId blockResult⟩ else c
  let ref := c2.Results.getD blockId []
  if blockResult.length = ref.length then
    Except.ok (c2, diagsFor blockId blockResult ref)
  else
    Except.error "CB_ENSURE blockResult.size() == ref.size()"

/-- The canon state after a `CheckOrSet` call, `c` itself when the call
aborted (a thrown `CB_ENSURE` leaves no successor state). -/
def canonStateOf (c : TCanonData) (r : Except String (TCanonData × List TDiag)) : TCanonData :=
  match r with
  | Except.ok (c2, _) => c2
  | Except.error _ => c

/-! ## Block partitioning (`DoMain`, lines 186–219) -/

/-- `options.BlockSize = Min(options.BlockSize, (size_t)dataset->GetObjectCount())`. -/
def effectiveBlockSize (configured docCount : Nat) : Nat := min configured docCount

/-- `const size_t blockCount = (docsCount) / options.BlockSize`. -/
def blockCount (docsCount blockSize : Nat) : Nat := docsCount / blockSize

/-- `const size_t blockStart = options.BlockSize * blockId`. -/
def blockStart (blockSize blockId : Nat) : Nat := blockSize * blockId

/-- `const size_t docsInCurrBlock = Min<size_t>(options.BlockSize, docsCount - options.BlockSize * blockId)`. -/
def docsInCurrBlock (blockSize docsCount blockId : Nat) : Nat :=
  min blockSize (docsCount - blockSize * blockId)

/-- Document `doc` is covered by block `blockId`: the block exists
(`blockId < blockCount`) and `doc` lies in the index range the block's
loops traverse, `[blockStart, blockStart + docsInCurrBlock)`. -/
def docInBlock (blockSize docsCount blockId doc : Nat) : Prop :=
  blockId < blockCount docsCount blockSize ∧
  blockStart blockSize blockId ≤ doc ∧
  doc < blockStart blockSize blockId + docsInCurrBlock blockSize docsCount blockId

instance (blockSize docsCount blockId doc : Nat) :
    Decidable (docInBlock blockSize docsCount blockId doc) := by
  unfold docInBlock; infer_instance

/-! ## The two block views (`DoMain`, lines 194–219)

The column storage `getFeatureDataBeginPtr` is modelled as a function
`featureData : Nat → Nat → ℚ` from flat feature index and document
position to the stored value. -/

/-- `transpFactorsRef[blockId]`: for each feature, the zero-copy column
slice of length `docsInCurrBlock` starting at `blockStart`. -/
def transpFactorsRef (featureData : Nat → Nat → ℚ)
    (blockSize docsCount factorsCount blockId : Nat) : List (List ℚ) :=
  (List.range factorsCount).map (fun i =>
    (List.range (docsInCurrBlock blockSize docsCount blockId)).map (fun j =>
      featureData i (blockStart blockSize blockId + j)))

/-- `nonTransposedPool[blockId]`: for each document of the block, the
freshly copied per-document feature vector
`docFacs[featureId] = getFeatureDataBeginPtr(featureId)[blockStart + docId]`. -/
def nonTransposedPool (featureData : Nat → Nat → ℚ)
    (blockSize docsCount factorsCount blockId : Nat) : List (List ℚ) :=
  (List.range (docsInCurrBlock blockSize docsCount blockId)).map (fun docId =>
    (List.range factorsCount).map (fun featureId =>
      featureData featureId (blockStart blockSize blockId + docId)))

/-! ## Modules and the module loop (`DoMain`, lines 223–263) -/

/-- The slice of `IPerftestModule` that `DoMain` uses.  `Do` is the timed
invocation: it returns the elapsed time for running the module on the given
layout's view of the given block (block views are functions of the block
index, so `Do` is indexed by `blockId`). -/
structure ModuleSpec where
  GetName : Layout → String
  SupportsLayout : Layout → Bool
  GetComparisonPriority : Layout → Int
  Do : Layout → Nat → ℚ

/-- The module-construction loop: for each registered key in order, try
`TPerftestModuleFactory::Construct`; on success the module is appended, on
failure the error is logged to `Cerr` and the key is skipped. -/
def constructModules {κ : Type} (keys : List κ)
    (construct : κ → Except String ModuleSpec) : List ModuleSpec :=
  keys.filterMap (fun k => (construct k).toOption)

/-- `Min<int>()` (32-bit `int`), the initial value of `biggestPriority`. -/
def intMinValue : Int := -(2 ^ 31)

/-- The body of the baseline-selection code for one successfully
constructed module: the objects-first check (lines 230–233) followed by the
features-first check (lines 234–237), each updating
`(biggestPriority, BaseResultName)` on a strictly greater priority. -/
def baselineStep (st : Int × String) (m : ModuleSpec) : Int × String :=
  let st1 :=
    if st.1 < m.GetComparisonPriority Layout.objectsFirst then
      (m.GetComparisonPriority Layout.objectsFirst, m.GetName Layout.objectsFirst)
    else st
  if st1.1 < m.GetComparisonPriority Layout.featuresFirst then
    (m.GetComparisonPriority Layout.featuresFirst, m.GetName Layout.featuresFirst)
  else st1

/-- The `(biggestPriority, BaseResultName)` pair after the construction
loop over all successfully constructed modules. -/
def selectBaseline (mods : List ModuleSpec) : Int × String :=
  mods.foldl baselineStep (intMinValue, "")

/-- The `(priority, name)` pairs of one module in the order the code
inspects them: objects-first, then features-first. -/
def layoutPairs (m : ModuleSpec) : List (Int × String) :=
  [(m.GetComparisonPriority Layout.objectsFirst, m.GetName Layout.objectsFirst),
   (m.GetComparisonPriority Layout.featuresFirst, m.GetName Layout.featuresFirst)]

/-- One module inside the repetition loop (lines 245–262).  Note the
source: the features-first branch (line 257) also records its sample under
`module->GetName(... ObjectsFirst)` while invoking
`module->Do(... FeaturesFirst, ...)`. -/
def runModuleOnce (res : ResultsMap) (m : ModuleSpec) (nBlocks : Nat) : ResultsMap :=
  let res1 :=
    if m.SupportsLayout Layout.objectsFirst then
      (List.range nBlocks).foldl (fun r blockId =>
        updateResult r (m.GetName Layout.objectsFirst) (m.Do Layout.objectsFirst blockId)) res
    else res
  if m.SupportsLayout Layout.featuresFirst then
    (List.range nBlocks).foldl (fun r blockId =>
      updateResult r (m.GetName Layout.objectsFirst) (m.Do Layout.featuresFirst blockId)) res1
  else res1

/-- The whole repetition loop (lines 244–263), starting from the empty
`TResults` registry. -/
def runRepetitions (mods : List ModuleSpec) (repetitionCount nBlocks : Nat) : ResultsMap :=
  (List.range repetitionCount).foldl
    (fun res _ => mods.foldl (fun r m => runModuleOnce r m nBlocks) res) []

/-- The execution phase of `DoMain` (lines 220–264) as far as the results
registry and the canon validator are concerned: `TCanonData
canonData(blockCount)` is constructed with every per-block reference empty,
the repetition loop fills the results registry, and no statement of the
loop (lines 244–263) mentions `canonData`, so the pair below is the state
of both at `results.OutputResults()`. -/
def doMainRun (mods : List ModuleSpec) (repetitionCount nBlocks : Nat) :
    ResultsMap × TCanonData :=
  (runRepetitions mods repetitionCount nBlocks,
   TCanonData.mk (List.replicate nBlocks []))

end ModelPerftest

namespace ModelPerftest

/-! ## Helper lemmas -/

/-- Reading index `i < n` of `(List.range n).map g` yields `g i`. -/
theorem getD_map_range {α : Type} (g : Nat → α) (n i : Nat) (d : α) (h : i < n) :
    ((List.range n).map g).getD i d = g i := by
  have hlen : i < ((List.range n).map g).length := by simpa using h
  rw [List.getD_eq_getElem _ _ hlen, List.getElem_map, List.getElem_range]

/-! ## C10 -/

/-- C10: with `blockCount = docsCount / blockSize` (floor division) and a
positive block size, `docsInCurrBlock = min(blockSize, docsCount -
blockSize * blockId)` equals `blockSize` for every `blockId < blockCount`:
no block is ever short, the remainder documents form no block at all. -/
theorem C10_every_block_is_full (docsCount blockSize blockId : Nat)
    (hpos : 0 < blockSize) (hb : blockId < blockCount docsCount blockSize) :
    docsInCurrBlock blockSize docsCount blockId = blockSize := by
  have h1 : blockId + 1 ≤ docsCount / blockSize := hb
  have h2 : (blockId + 1) * blockSize ≤ docsCount := (Nat.le_div_iff_mul_le hpos).mp h1
  have h3 : blockSize * blockId + blockSize ≤ docsCount := by
    calc blockSize * blockId + blockSize = (blockId + 1) * blockSize := by ring
      _ ≤ docsCount := h2
  unfold docsInCurrBlock
  have h4 : blockSize ≤ docsCount - blockSize * blockId := by omega
  exact Nat.min_eq_left h4

theorem C10_every_block_is_full_witness :
    0 < 3 ∧ 2 < blockCount 10 3 ∧ docsInCurrBlock 3 10 2 = 3 :=
  ⟨by decide, by decide, C10_every_block_is_full 10 3 2 (by decide) (by decide)⟩

/-! ## C2 -/

/-- C2: with effective block size `bs = min(configured, docCount)`,
`blockCount` is the floor quotient, block `b` starts at `b * bs`, every
document at index `≥ blockCount * bs` lies in no block, and every document
at index `< blockCount * bs` lies in block `d / bs`. -/
theorem C2_block_partition (configured docCount bs : Nat)
    (hbs : bs = effectiveBlockSize configured docCount) (hpos : 0 < bs) :
    blockCount docCount bs = docCount / bs ∧
    (∀ b, blockStart bs b = b * bs) ∧
    (∀ d, blockCount docCount bs * bs ≤ d → ∀ b, ¬ docInBlock bs docCount b d) ∧
    (∀ d, d < blockCount docCount bs * bs →
      d / bs < blockCount docCount bs ∧ docInBlock bs docCount (d / bs) d) := by
  refine ⟨rfl, fun b => Nat.mul_comm bs b, ?_, ?_⟩
  · intro d hd b hdb
    obtain ⟨hb, _, hhi⟩ := hdb
    have h1 : docsInCurrBlock bs docCount b ≤ bs := Nat.min_le_left _ _
    have h2 : blockStart bs b + docsInCurrBlock bs docCount b ≤ bs * (b + 1) := by
      unfold blockStart
      calc bs * b + docsInCurrBlock bs docCount b
          ≤ bs * b + bs := Nat.add_le_add_left h1 _
        _ = bs * (b + 1) := by ring
    have h3 : b + 1 ≤ blockCount docCount bs := hb
    have h4 : bs * (b + 1) ≤ bs * blockCount docCount bs := Nat.mul_le_mul_left bs h3
    have h5 : bs * blockCount docCount bs = blockCount docCount bs * bs := Nat.mul_comm _ _
    have h6 : d < blockCount docCount bs * bs :=
      lt_of_lt_of_le hhi (le_trans h2 (le_trans h4 (le_of_eq h5)))
    exact absurd (lt_of_lt_of_le h6 hd) (lt_irrefl d)
  · intro d hd
    have hblt : d / bs < blockCount docCount bs := by
      unfold blockCount at hd ⊢
      exact (Nat.div_lt_iff_lt_mul hpos).mpr hd
    have hddc : d < docCount := by
      have : blockCount docCount bs * bs ≤ docCount := Nat.div_mul_le_self docCount bs
      exact lt_of_lt_of_le hd this
    refine ⟨hblt, hblt, ?_, ?_⟩
    · exact Nat.le.intro (Nat.div_add_mod d bs)
    · unfold blockStart docsInCurrBlock
      have hdm : bs * (d / bs) + d % bs = d := Nat.div_add_mod d bs
      have hmod : d % bs < bs := Nat.mod_lt d hpos
      generalize hA : bs * (d / bs) = A at hdm ⊢
      generalize hr : d % bs = r at hdm hmod
      omega

theorem C2_block_partition_witness :
    (3 = effectiveBlockSize 3 10 ∧ 0 < 3 ∧
      (blockCount 10 3 = 10 / 3 ∧
       (∀ b, blockStart 3 b = b * 3) ∧
       (∀ d, blockCount 10 3 * 3 ≤ d → ∀ b, ¬ docInBlock 3 10 b d) ∧
       (∀ d, d < blockCount 10 3 * 3 →
         d / 3 < blockCount 10 3 ∧ docInBlock 3 10 (d / 3) d))) ∧
    blockCount 10 3 = 3 ∧ docInBlock 3 10 0 2 ∧ docInBlock 3 10 1 3 ∧
      docInBlock 3 10 2 8 ∧ (∀ b, ¬ docInBlock 3 10 b 9) :=
  ⟨⟨by decide, by decide, C2_block_partition 3 10 3 (by decide) (by decide)⟩,
    by decide, by decide, by decide, by decide,
    fun b => (C2_block_partition 3 10 3 (by decide) (by decide)).2.2.1 9 (by decide) b⟩

end ModelPerftest

namespace ModelPerftest

/-! ## C5 -/

/-- C5: for every document index and feature index inside a block, the
objects-first copy `nonTransposedPool` and the features-first slice view
`transpFactorsRef` hold the same value, namely the column storage at
`(feature, blockStart + docId)`: the copy is an exact transpose of the
column slices. -/
theorem C5_views_agree (featureData : Nat → Nat → ℚ)
    (blockSize docsCount factorsCount blockId docId f : Nat)
    (hd : docId < docsInCurrBlock blockSize docsCount blockId)
    (hf : f < factorsCount) :
    ((nonTransposedPool featureData blockSize docsCount factorsCount blockId).getD
        docId []).getD f 0 =
      featureData f (blockStart blockSize blockId + docId) ∧
    ((transpFactorsRef featureData blockSize docsCount factorsCount blockId).getD
        f []).getD docId 0 =
      featureData f (blockStart blockSize blockId + docId) ∧
    ((nonTransposedPool featureData blockSize docsCount factorsCount blockId).getD
        docId []).getD f 0 =
      ((transpFactorsRef featureData blockSize docsCount factorsCount blockId).getD
        f []).getD docId 0 := by
  have h1 :
      ((nonTransposedPool featureData blockSize docsCount factorsCount blockId).getD
        docId []).getD f 0 =
        featureData f (blockStart blockSize blockId + docId) := by
    unfold nonTransposedPool
    rw [getD_map_range _ _ _ _ hd, getD_map_range _ _ _ _ hf]
  have h2 :
      ((transpFactorsRef featureData blockSize docsCount factorsCount blockId).getD
        f []).getD docId 0 =
        featureData f (blockStart blockSize blockId + docId) := by
    unfold transpFactorsRef
    rw [getD_map_range _ _ _ _ hf, getD_map_range _ _ _ _ hd]
  exact ⟨h1, h2, h1.trans h2.symm⟩

def c5FeatureData (f p : Nat) : ℚ := 100 * f + p

theorem C5_views_agree_witness :
    2 < docsInCurrBlock 3 10 1 ∧ 1 < 2 ∧
      (((nonTransposedPool c5FeatureData 3 10 2 1).getD 2 []).getD 1 0 =
          c5FeatureData 1 (blockStart 3 1 + 2) ∧
        ((transpFactorsRef c5FeatureData 3 10 2 1).getD 1 []).getD 2 0 =
          c5FeatureData 1 (blockStart 3 1 + 2) ∧
        ((nonTransposedPool c5FeatureData 3 10 2 1).getD 2 []).getD 1 0 =
          ((transpFactorsRef c5FeatureData 3 10 2 1).getD 1 []).getD 2 0) :=
  ⟨by decide, by decide,
    C5_views_agree c5FeatureData 3 10 2 1 2 1 (by decide) (by decide)⟩

/-! ## C8 -/

/-- C8: the execution phase never invokes `CheckOrSet`: the canon validator
leaves `DoMain` exactly as constructed, every per-block reference vector
still empty. -/
theorem C8_canon_never_invoked (mods : List ModuleSpec) (repetitionCount nBlocks : Nat) :
    (doMainRun mods repetitionCount nBlocks).2 = TCanonData.mk (List.replicate nBlocks []) ∧
    ∀ b : Nat, ((doMainRun mods repetitionCount nBlocks).2.Results.getD b []) = [] := by
  refine ⟨rfl, fun b => ?_⟩
  show (List.replicate nBlocks ([] : List ℚ)).getD b [] = []
  rcases lt_or_ge b nBlocks with h | h
  · rw [List.getD_eq_getElem _ _ (by simpa using h)]
    exact List.getElem_replicate ..
  · exact List.getD_eq_default _ _ (by simpa using h)

/-! ## C9 -/

/-- C9 counterexample: on a fresh validator, `CheckOrSet(0, [])` succeeds
and stores the empty vector as block 0's reference (the state is unchanged:
the stored reference is the first-observed output vector `[]`); a
subsequent `CheckOrSet(0, [1])` on the same block then overwrites the
stored reference with `[1] ≠ []` — the later call mutates the stored
reference. -/
theorem C9_stored_reference_mutated :
    canonStateOf ⟨[[]]⟩ (TCanonData.checkOrSet ⟨[[]]⟩ 0 []) = ⟨[[]]⟩ ∧
    canonStateOf ⟨[[]]⟩ (TCanonData.checkOrSet ⟨[[]]⟩ 0 [(1 : ℚ)]) = ⟨[[(1 : ℚ)]]⟩ ∧
    (TCanonData.mk [[(1 : ℚ)]]).Results.getD 0 [] ≠ (TCanonData.mk [[]]).Results.getD 0 [] :=
  ⟨rfl, rfl, by decide⟩

/-- C9 amended: once a `CheckOrSet` call has stored a *non-empty* reference
vector for a block, no later `CheckOrSet` on that block changes the
validator's state, whatever the later result vector holds. -/
theorem C9_nonempty_reference_immutable (c : TCanonData) (blockId : Nat) (v : List ℚ)
    (h : c.Results.getD blockId [] ≠ []) :
    canonStateOf c (c.checkOrSet blockId v) = c := by
  unfold TCanonData.checkOrSet
  have hne : (c.Results.getD blockId []).isEmpty = false := by
    cases hh : c.Results.getD blockId [] with
    | nil => exact absurd hh h
    | cons a l => rfl
  simp only [hne, Bool.false_eq_true, if_false]
  by_cases hlen : v.length = (c.Results.getD blockId []).length
  · rw [if_pos hlen]; rfl
  · rw [if_neg hlen]; rfl

theorem C9_nonempty_reference_immutable_witness :
    (TCanonData.mk [[(5 : ℚ)]]).Results.getD 0 [] ≠ [] ∧
    canonStateOf ⟨[[(5 : ℚ)]]⟩ (TCanonData.checkOrSet ⟨[[(5 : ℚ)]]⟩ 0 [(9 : ℚ)]) =
      ⟨[[(5 : ℚ)]]⟩ :=
  ⟨by decide, C9_nonempty_reference_immutable ⟨[[(5 : ℚ)]]⟩ 0 [(9 : ℚ)] (by decide)⟩

/-! ## C7 -/

/-- C7: when `BaseResultName` is set but absent from the registry's map,
`OutputResults` throws (`TMap::at`), no report is produced, and the
exception propagates so the process exits with `-1`. -/
theorem C7_missing_baseline_fatal (r : TResults) (hset : r.BaseResultName ≠ "")
    (habs : findResult r.Results r.BaseResultName = none) :
    r.outputResults = Except.error "TMap::at: key not found" ∧ mainExitCode r = -1 := by
  have h1 : r.outputResults = Except.error "TMap::at: key not found" := by
    unfold TResults.outputResults
    rw [if_pos hset, habs]
  exact ⟨h1, by unfold mainExitCode; rw [h1]⟩

theorem C7_missing_baseline_fatal_witness :
    (TResults.mk [("a", [(1 : ℚ)])] "b").BaseResultName ≠ "" ∧
    findResult (TResults.mk [("a", [(1 : ℚ)])] "b").Results "b" = none ∧
    (TResults.mk [("a", [(1 : ℚ)])] "b").outputResults =
      Except.error "TMap::at: key not found" ∧
    mainExitCode (TResults.mk [("a", [(1 : ℚ)])] "b") = -1 :=
  ⟨by decide, by rfl,
    C7_missing_baseline_fatal (TResults.mk [("a", [(1 : ℚ)])] "b") (by decide) (by rfl)⟩

end ModelPerftest

namespace ModelPerftest

/-! ## C1 -/

/-- A variant that supports only the features-first layout and reports a
distinct display name per layout. -/
def c1Module : ModuleSpec where
  GetName := fun l => match l with
    | Layout.objectsFirst => "objName"
    | Layout.featuresFirst => "featName"
  SupportsLayout := fun l => match l with
    | Layout.objectsFirst => false
    | Layout.featuresFirst => true
  GetComparisonPriority := fun _ => 0
  Do := fun _ _ => 1

/-- C1: the features-first branch of the execution loop records its sample
under `GetName(ObjectsFirst)`, not under the display name of the layout
that ran.  With one module that supports only the features-first layout,
one repetition and one block, the whole registry is a single entry under
the objects-first display name, and the features-first display name is
absent. -/
theorem C1_featuresFirst_sample_misfiled :
    c1Module.SupportsLayout Layout.objectsFirst = false ∧
    c1Module.SupportsLayout Layout.featuresFirst = true ∧
    c1Module.GetName Layout.featuresFirst = "featName" ∧
    runRepetitions [c1Module] 1 1 = [("objName", [(1 : ℚ)])] ∧
    findResult (runRepetitions [c1Module] 1 1) "featName" = none :=
  ⟨rfl, rfl, rfl, rfl, rfl⟩

end ModelPerftest

namespace ModelPerftest

/-! ## C4 -/

/-- Comparing a vector against itself emits no diagnostic. -/
theorem diagsFor_self (b : Nat) (v : List ℚ) : diagsFor b v v = [] := by
  unfold diagsFor
  rw [List.filterMap_eq_nil_iff]
  intro i _
  have h0 : ¬ Epsilon < |v.getD i 0 - v.getD i 0| := by
    rw [sub_self, abs_zero]
    norm_num [Epsilon]
  exact if_neg h0

/-- Every emitted diagnostic carries the block id, an in-range element
index, the observed value, the reference value and their delta, and records
a divergence strictly beyond `Epsilon`. -/
theorem diagsFor_mem (b : Nat) (v r : List ℚ) (d : TDiag) (hd : d ∈ diagsFor b v r) :
    d.blockId = b ∧ d.index < v.length ∧ d.observed = v.getD d.index 0 ∧
    d.reference = r.getD d.index 0 ∧ d.delta = d.observed - d.reference ∧
    Epsilon < |d.observed - d.reference| := by
  unfold diagsFor at hd
  rw [List.mem_filterMap] at hd
  obtain ⟨i, hi, hfi⟩ := hd
  rw [List.mem_range] at hi
  by_cases hc : Epsilon < |v.getD i 0 - r.getD i 0|
  · rw [if_pos hc] at hfi
    injection hfi with h
    subst h
    exact ⟨rfl, hi, rfl, rfl, rfl, hc⟩
  · rw [if_neg hc] at hfi
    exact absurd hfi (by simp)

/-- For each index `i`, the diagnostic list holds exactly one entry with
element index `i` when `i` is in range and the divergence at `i` exceeds
`Epsilon`, and none otherwise. -/
theorem diagsFor_count (b : Nat) (v r : List ℚ) (i : Nat) :
    ((diagsFor b v r).filter (fun d => d.index == i)).length =
      if i < v.length ∧ Epsilon < |v.getD i 0 - r.getD i 0| then 1 else 0 := by
  unfold diagsFor
  generalize v.length = n
  induction n with
  | zero => simp
  | succ n ih =>
    rw [List.range_succ, List.filterMap_append, List.filter_append, List.length_append, ih]
    have hsingle :
        List.filterMap (fun j =>
          if Epsilon < |v.getD j 0 - r.getD j 0| then
            some (⟨b, j, v.getD j 0, r.getD j 0, v.getD j 0 - r.getD j 0⟩ : TDiag)
          else none) [n] =
          if Epsilon < |v.getD n 0 - r.getD n 0| then
            [(⟨b, n, v.getD n 0, r.getD n 0, v.getD n 0 - r.getD n 0⟩ : TDiag)]
          else [] := by
      by_cases hc : Epsilon < |v.getD n 0 - r.getD n 0|
      · rw [List.filterMap_cons, if_pos hc, if_pos hc, List.filterMap_nil]
      · rw [List.filterMap_cons, if_neg hc, if_neg hc, List.filterMap_nil]
    rw [hsingle]
    by_cases hc : Epsilon < |v.getD n 0 - r.getD n 0|
    · rw [if_pos hc]
      by_cases hin : i = n
      · subst hin
        simp only [List.filter_cons, List.filter_nil]
        have hbeq : ((⟨b, i, v.getD i 0, r.getD i 0, v.getD i 0 - r.getD i 0⟩ : TDiag).index == i) = true := by
          simp
        rw [hbeq]
        simp only [if_true, List.length_cons, List.length_nil]
        rw [if_neg (by simp [lt_irrefl]), if_pos ⟨Nat.lt_succ_self i, hc⟩]
      · have hbeq : ((⟨b, n, v.getD n 0, r.getD n 0, v.getD n 0 - r.getD n 0⟩ : TDiag).index == i) = false := by
          simp [Ne.symm hin]
        simp only [List.filter_cons, hbeq, List.filter_nil]
        have hiff : (i < n + 1) = (i < n) := by
          apply propext
          omega
        simp [hiff]
    · rw [if_neg hc]
      simp only [List.filter_nil, List.length_nil, Nat.add_zero]
      by_cases hin : i = n
      · subst hin
        rw [if_neg (by simp [lt_irrefl]), if_neg (by intro h; exact hc h.2)]
      · have hiff : (i < n + 1) = (i < n) := by
          apply propext
          omega
        simp [hiff]

end ModelPerftest

namespace ModelPerftest

/-- Setting index `i < l.length` then reading it back with a default yields
the written value. -/
theorem getD_set_self {α : Type} (l : List α) (i : Nat) (a d : α) (h : i < l.length) :
    (l.set i a).getD i d = a := by
  rw [List.getD_eq_getElem _ _ (by simpa using h)]
  exact List.getElem_set_self _

/-- C4: `CheckOrSet` on a block with an empty stored reference stores the
result verbatim and emits no diagnostic; on a non-empty reference it
succeeds exactly when the sizes agree (fatal `CB_ENSURE` otherwise), and on
success it leaves the state untouched and emits exactly one diagnostic —
carrying block id, element index, observed value, reference value and
delta — for each index diverging by more than `Epsilon`, and none for an
index within `Epsilon`. -/
theorem C4_checkOrSet_contract (c : TCanonData) (blockId : Nat) (v : List ℚ)
    (hb : blockId < c.Results.length) :
    (c.Results.getD blockId [] = [] →
       c.checkOrSet blockId v = Except.ok (⟨c.Results.set blockId v⟩, [])) ∧
    (c.Results.getD blockId [] ≠ [] →
       ((c.checkOrSet blockId v).isOk = true ↔ v.length = (c.Results.getD blockId []).length) ∧
       (v.length = (c.Results.getD blockId []).length →
          c.checkOrSet blockId v =
            Except.ok (c, diagsFor blockId v (c.Results.getD blockId [])) ∧
          (∀ d ∈ diagsFor blockId v (c.Results.getD blockId []),
             d.blockId = blockId ∧ d.index < v.length ∧
             d.observed = v.getD d.index 0 ∧
             d.reference = (c.Results.getD blockId []).getD d.index 0 ∧
             d.delta = d.observed - d.reference ∧
             Epsilon < |d.observed - d.reference|) ∧
          (∀ i, ((diagsFor blockId v (c.Results.getD blockId [])).filter
                   (fun d => d.index == i)).length =
             if i < v.length ∧
                 Epsilon < |v.getD i 0 - (c.Results.getD blockId []).getD i 0| then 1
             else 0))) := by
  refine ⟨?_, ?_⟩
  · intro he
    have hie : (c.Results.getD blockId []).isEmpty = true := by rw [he]; rfl
    have hset : (c.Results.set blockId v).getD blockId [] = v :=
      getD_set_self _ _ _ _ hb
    simp only [TCanonData.checkOrSet, hie, if_true, hset, diagsFor_self]
  · intro hne
    have hie : (c.Results.getD blockId []).isEmpty = false := by
      cases hh : c.Results.getD blockId [] with
      | nil => exact absurd hh hne
      | cons a l => rfl
    refine ⟨?_, ?_⟩
    · constructor
      · intro hok
        by_contra hlen
        simp only [TCanonData.checkOrSet, hie, Bool.false_eq_true, if_false,
          if_neg hlen] at hok
        simp [Except.isOk, Except.toBool] at hok
      · intro hlen
        simp only [TCanonData.checkOrSet, hie, Bool.false_eq_true, if_false, if_pos hlen]
        rfl
    · intro hlen
      refine ⟨?_, fun d hd => diagsFor_mem blockId v _ d hd,
        fun i => diagsFor_count blockId v _ i⟩
      simp only [TCanonData.checkOrSet, hie, Bool.false_eq_true, if_false]
      rw [if_pos hlen]

end ModelPerftest

namespace ModelPerftest

theorem C4_checkOrSet_contract_witness :
    0 < (TCanonData.mk [[]]).Results.length ∧
    (((TCanonData.mk [[]]).Results.getD 0 [] = [] →
       (TCanonData.mk [[]]).checkOrSet 0 [(1 : ℚ)] =
         Except.ok (⟨(TCanonData.mk [[]]).Results.set 0 [(1 : ℚ)]⟩, [])) ∧
     ((TCanonData.mk [[]]).Results.getD 0 [] ≠ [] →
       (((TCanonData.mk [[]]).checkOrSet 0 [(1 : ℚ)]).isOk = true ↔
          [(1 : ℚ)].length = ((TCanonData.mk [[]]).Results.getD 0 []).length) ∧
       ([(1 : ℚ)].length = ((TCanonData.mk [[]]).Results.getD 0 []).length →
          (TCanonData.mk [[]]).checkOrSet 0 [(1 : ℚ)] =
            Except.ok (TCanonData.mk [[]],
              diagsFor 0 [(1 : ℚ)] ((TCanonData.mk [[]]).Results.getD 0 [])) ∧
          (∀ d ∈ diagsFor 0 [(1 : ℚ)] ((TCanonData.mk [[]]).Results.getD 0 []),
             d.blockId = 0 ∧ d.index < [(1 : ℚ)].length ∧
             d.observed = [(1 : ℚ)].getD d.index 0 ∧
             d.reference = ((TCanonData.mk [[]]).Results.getD 0 []).getD d.index 0 ∧
             d.delta = d.observed - d.reference ∧
             Epsilon < |d.observed - d.reference|) ∧
          (∀ i, ((diagsFor 0 [(1 : ℚ)] ((TCanonData.mk [[]]).Results.getD 0 [])).filter
                   (fun d => d.index == i)).length =
             if i < [(1 : ℚ)].length ∧
                 Epsilon < |[(1 : ℚ)].getD i 0 -
                   ((TCanonData.mk [[]]).Results.getD 0 []).getD i 0| then 1
             else 0)))) :=
  ⟨by decide, C4_checkOrSet_contract (TCanonData.mk [[]]) 0 [(1 : ℚ)] (by decide)⟩

end ModelPerftest

namespace ModelPerftest

/-! ## C3 -/

/-- One update of `(biggestPriority, BaseResultName)`: take the candidate
pair exactly when its priority is strictly greater. -/
def pickStep (st p : Int × String) : Int × String := if st.1 < p.1 then p else st

/-- The `(priority, name)` pairs of all modules in scan order: modules in
registration-key order, and within each module the objects-first pair
before the features-first pair. -/
def allLayoutPairs : List ModuleSpec → List (Int × String)
  | [] => []
  | m :: rest => layoutPairs m ++ allLayoutPairs rest

theorem baselineStep_eq_foldl (st : Int × String) (m : ModuleSpec) :
    baselineStep st m = (layoutPairs m).foldl pickStep st := by
  unfold baselineStep layoutPairs pickStep
  simp only [List.foldl_cons, List.foldl_nil]

theorem selectBaseline_eq_foldl (mods : List ModuleSpec) :
    selectBaseline mods = (allLayoutPairs mods).foldl pickStep (intMinValue, "") := by
  unfold selectBaseline
  generalize (intMinValue, "") = init
  induction mods generalizing init with
  | nil => rfl
  | cons m rest ih =>
    rw [List.foldl_cons, baselineStep_eq_foldl]
    show rest.foldl baselineStep ((layoutPairs m).foldl pickStep init) = _
    rw [ih, allLayoutPairs, List.foldl_append]

/-- Characterization of the strict-improvement fold: either nothing beats
the initial pair and it survives, or the fold returns the first element
attaining the maximum priority: every earlier element is strictly smaller
and every element is at most it. -/
theorem foldl_pickStep_argmax (l : List (Int × String)) (init : Int × String) :
    (l.foldl pickStep init = init ∧ ∀ p ∈ l, p.1 ≤ init.1) ∨
    (∃ j, ∃ hj : j < l.length, l.foldl pickStep init = l[j] ∧
      init.1 < l[j].1 ∧
      (∀ k, ∀ hk : k < l.length, k < j → l[k].1 < l[j].1) ∧
      (∀ k, ∀ hk : k < l.length, l[k].1 ≤ l[j].1)) := by
  induction l generalizing init with
  | nil => exact Or.inl ⟨rfl, by simp⟩
  | cons p rest ih =>
    rw [List.foldl_cons]
    by_cases hp : init.1 < p.1
    · have hstep : pickStep init p = p := if_pos hp
      rw [hstep]
      rcases ih p with ⟨heq, hall⟩ | ⟨j, hj, heq, hlt, hprev, hmax⟩
      · refine Or.inr ⟨0, by simp, by simpa using heq, by simpa using hp, ?_, ?_⟩
        · intro k hk hk0
          exact absurd hk0 (Nat.not_lt_zero k)
        · intro k hk
          match k, hk with
          | 0, _ => exact le_refl _
          | k' + 1, hk =>
            have hk' : k' < rest.length := by simpa using hk
            simpa using hall rest[k'] (List.getElem_mem hk')
      · refine Or.inr ⟨j + 1, by simpa using Nat.succ_lt_succ hj, by simpa using heq,
          ?_, ?_, ?_⟩
        · simpa using lt_trans hp hlt
        · intro k hk hkj
          match k, hk with
          | 0, _ => simpa using hlt
          | k' + 1, hk =>
            have hk' : k' < rest.length := by simpa using hk
            have : k' < j := by omega
            simpa using hprev k' hk' this
        · intro k hk
          match k, hk with
          | 0, _ => simpa using le_of_lt hlt
          | k' + 1, hk =>
            have hk' : k' < rest.length := by simpa using hk
            simpa using hmax k' hk'
    · have hple : p.1 ≤ init.1 := not_lt.mp hp
      have hstep : pickStep init p = init := if_neg hp
      rw [hstep]
      rcases ih init with ⟨heq, hall⟩ | ⟨j, hj, heq, hlt, hprev, hmax⟩
      · refine Or.inl ⟨heq, ?_⟩
        intro q hq
        rcases List.mem_cons.mp hq with hq0 | hqr
        · rw [hq0]; exact hple
        · exact hall q hqr
      · refine Or.inr ⟨j + 1, by simpa using Nat.succ_lt_succ hj, by simpa using heq,
          ?_, ?_, ?_⟩
        · simpa using hlt
        · intro k hk hkj
          match k, hk with
          | 0, _ => simpa using lt_of_le_of_lt hple hlt
          | k' + 1, hk =>
            have hk' : k' < rest.length := by simpa using hk
            have : k' < j := by omega
            simpa using hprev k' hk' this
        · intro k hk
          match k, hk with
          | 0, _ => simpa using le_of_lt (lt_of_le_of_lt hple hlt)
          | k' + 1, hk =>
            have hk' : k' < rest.length := by simpa using hk
            simpa using hmax k' hk'

/-- C3: when every scanned pair has priority above `Min<int>()` and some
pair exists, the baseline is the display name of the first pair — in scan
order: key order, objects-first before features-first — attaining the
maximum comparison priority: strictly above everything seen before it, and
at least everything scanned at all. -/
theorem C3_baseline_is_first_max (mods : List ModuleSpec)
    (hne : allLayoutPairs mods ≠ [])
    (hgt : ∀ p ∈ allLayoutPairs mods, intMinValue < p.1) :
    ∃ j, ∃ hj : j < (allLayoutPairs mods).length,
      (selectBaseline mods).2 = (allLayoutPairs mods)[j].2 ∧
      (selectBaseline mods).1 = (allLayoutPairs mods)[j].1 ∧
      (∀ k, ∀ hk : k < (allLayoutPairs mods).length, k < j →
         (allLayoutPairs mods)[k].1 < (allLayoutPairs mods)[j].1) ∧
      (∀ k, ∀ hk : k < (allLayoutPairs mods).length,
         (allLayoutPairs mods)[k].1 ≤ (allLayoutPairs mods)[j].1) := by
  have hfold := foldl_pickStep_argmax (allLayoutPairs mods) (intMinValue, "")
  rw [← selectBaseline_eq_foldl] at hfold
  rcases hfold with ⟨_, hall⟩ | ⟨j, hj, heq, _, hprev, hmax⟩
  · obtain ⟨p, hp⟩ := List.exists_mem_of_ne_nil _ hne
    exact absurd (hall p hp) (not_le.mpr (hgt p hp))
  · exact ⟨j, hj, by rw [heq], by rw [heq], hprev, hmax⟩

end ModelPerftest

namespace ModelPerftest

/-- A module with fixed per-layout display names and one comparison
priority for both layouts. -/
def c3Module (nmObj nmFeat : String) (pr : Int) : ModuleSpec where
  GetName := fun l => match l with
    | Layout.objectsFirst => nmObj
    | Layout.featuresFirst => nmFeat
  SupportsLayout := fun _ => true
  GetComparisonPriority := fun _ => pr
  Do := fun _ _ => 1

/-- Variants with priorities A:5, B:7, C:3 on both layouts. -/
def c3Mods : List ModuleSpec :=
  [c3Module "Aobj" "Afeat" 5, c3Module "Bobj" "Bfeat" 7, c3Module "Cobj" "Cfeat" 3]

theorem C3_baseline_is_first_max_witness :
    allLayoutPairs c3Mods ≠ [] ∧
    (∀ p ∈ allLayoutPairs c3Mods, intMinValue < p.1) ∧
    (∃ j, ∃ hj : j < (allLayoutPairs c3Mods).length,
      (selectBaseline c3Mods).2 = (allLayoutPairs c3Mods)[j].2 ∧
      (selectBaseline c3Mods).1 = (allLayoutPairs c3Mods)[j].1 ∧
      (∀ k, ∀ hk : k < (allLayoutPairs c3Mods).length, k < j →
         (allLayoutPairs c3Mods)[k].1 < (allLayoutPairs c3Mods)[j].1) ∧
      (∀ k, ∀ hk : k < (allLayoutPairs c3Mods).length,
         (allLayoutPairs c3Mods)[k].1 ≤ (allLayoutPairs c3Mods)[j].1)) ∧
    (selectBaseline c3Mods).2 = "Bobj" ∧ (selectBaseline c3Mods).1 = 7 :=
  ⟨by decide, by decide,
    C3_baseline_is_first_max c3Mods (by decide) (by decide), by decide, by decide⟩

end ModelPerftest

namespace ModelPerftest

/-! ## C6 -/

/-- A key whose construction throws contributes no module: the module list
is the one obtained without that key. -/
theorem constructModules_skips_failure {κ : Type} (ks1 ks2 : List κ) (k : κ)
    (construct : κ → Except String ModuleSpec) (e : String)
    (hk : construct k = Except.error e) :
    constructModules (ks1 ++ k :: ks2) construct = constructModules (ks1 ++ ks2) construct := by
  unfold constructModules
  simp only [List.filterMap_append, List.filterMap_cons, hk, Except.toOption]

/-- `UpdateResult` introduces no key other than the updated one. -/
theorem mem_keys_updateResult (res : ResultsMap) (n : String) (t : ℚ) (name : String)
    (h : name ∈ (updateResult res n t).map Prod.fst) :
    name = n ∨ name ∈ res.map Prod.fst := by
  induction res with
  | nil =>
    simp only [updateResult, List.map_cons, List.map_nil, List.mem_singleton] at h
    exact Or.inl h
  | cons p rest ih =>
    obtain ⟨k, ts⟩ := p
    by_cases hk : k = n
    · simp only [updateResult, if_pos hk, List.map_cons, List.mem_cons] at h
      rcases h with h | h
      · exact Or.inr (by simp [h])
      · exact Or.inr (by simp [h])
    · simp only [updateResult, if_neg hk, List.map_cons, List.mem_cons] at h
      rcases h with h | h
      · exact Or.inr (by simp [h])
      · rcases ih h with h1 | h2
        · exact Or.inl h1
        · exact Or.inr (by simp [h2])

/-- A fold of `UpdateResult` calls with one fixed key introduces no other
key. -/
theorem mem_keys_foldl_update {α : Type} (l : List α) (g : α → ℚ) (n : String)
    (res : ResultsMap) (name : String)
    (h : name ∈ (l.foldl (fun r b => updateResult r n (g b)) res).map Prod.fst) :
    name = n ∨ name ∈ res.map Prod.fst := by
  induction l generalizing res with
  | nil => exact Or.inr h
  | cons b rest ih =>
    rw [List.foldl_cons] at h
    rcases ih (updateResult res n (g b)) h with h1 | h2
    · exact Or.inl h1
    · rcases mem_keys_updateResult res n (g b) name h2 with h3 | h4
      · exact Or.inl h3
      · exact Or.inr h4

/-- One module's pass over the blocks records only under that module's
objects-first display name. -/
theorem mem_keys_runModuleOnce (res : ResultsMap) (m : ModuleSpec) (nBlocks : Nat)
    (name : String) (h : name ∈ (runModuleOnce res m nBlocks).map Prod.fst) :
    name = m.GetName Layout.objectsFirst ∨ name ∈ res.map Prod.fst := by
  unfold runModuleOnce at h
  by_cases hf : m.SupportsLayout Layout.featuresFirst = true
  · rw [if_pos hf] at h
    rcases mem_keys_foldl_update _ _ _ _ _ h with h1 | h2
    · exact Or.inl h1
    · by_cases ho : m.SupportsLayout Layout.objectsFirst = true
      · rw [if_pos ho] at h2
        exact mem_keys_foldl_update _ _ _ _ _ h2
      · rw [if_neg ho] at h2
        exact Or.inr h2
  · rw [if_neg hf] at h
    by_cases ho : m.SupportsLayout Layout.objectsFirst = true
    · rw [if_pos ho] at h
      exact mem_keys_foldl_update _ _ _ _ _ h
    · rw [if_neg ho] at h
      exact Or.inr h

/-- Every key of the registry produced by the repetition loop is the
objects-first display name of one of the constructed modules. -/
theorem mem_keys_runRepetitions (mods : List ModuleSpec) (reps nBlocks : Nat)
    (name : String) (h : name ∈ (runRepetitions mods reps nBlocks).map Prod.fst) :
    ∃ m ∈ mods, name = m.GetName Layout.objectsFirst := by
  unfold runRepetitions at h
  have aux1 : ∀ (ms : List ModuleSpec) (res : ResultsMap),
      (∀ x ∈ ms, x ∈ mods) →
      (∀ nm ∈ res.map Prod.fst, ∃ m ∈ mods, nm = m.GetName Layout.objectsFirst) →
      ∀ nm ∈ (ms.foldl (fun r m => runModuleOnce r m nBlocks) res).map Prod.fst,
        ∃ m ∈ mods, nm = m.GetName Layout.objectsFirst := by
    intro ms
    induction ms with
    | nil => exact fun res _ hres nm hnm => hres nm hnm
    | cons m rest ih =>
      intro res hsub hres nm hnm
      rw [List.foldl_cons] at hnm
      refine ih _ (fun x hx => hsub x (List.mem_cons_of_mem m hx)) ?_ nm hnm
      intro nm2 hnm2
      rcases mem_keys_runModuleOnce res m nBlocks nm2 hnm2 with h1 | h2
      · exact ⟨m, hsub m (List.mem_cons_self m rest), h1⟩
      · exact hres nm2 h2
  have aux2 : ∀ (rl : List Nat) (res : ResultsMap),
      (∀ nm ∈ res.map Prod.fst, ∃ m ∈ mods, nm = m.GetName Layout.objectsFirst) →
      ∀ nm ∈ (rl.foldl
          (fun res _ => mods.foldl (fun r m => runModuleOnce r m nBlocks) res)
          res).map Prod.fst,
        ∃ m ∈ mods, nm = m.GetName Layout.objectsFirst := by
    intro rl
    induction rl with
    | nil => exact fun res hres nm hnm => hres nm hnm
    | cons b rest ih =>
      intro res hres nm hnm
      rw [List.foldl_cons] at hnm
      exact ih _ (aux1 mods _ (fun x hx => hx) hres) nm hnm
  exact aux2 (List.range reps) [] (by simp) name h

/-- C6: a registration key whose construction throws is skipped — the
constructed module list equals the one for the key sequence without it —
and the registry the run produces holds only keys that are display names of
successfully constructed modules: the failed key's variant contributes no
entry and the remaining keys all still run. -/
theorem C6_construction_failure_isolated {κ : Type} (ks1 ks2 : List κ) (k : κ)
    (construct : κ → Except String ModuleSpec) (e : String) (reps nBlocks : Nat)
    (hk : construct k = Except.error e) :
    constructModules (ks1 ++ k :: ks2) construct = constructModules (ks1 ++ ks2) construct ∧
    ∀ name ∈ (runRepetitions (constructModules (ks1 ++ k :: ks2) construct)
        reps nBlocks).map Prod.fst,
      ∃ m ∈ constructModules (ks1 ++ ks2) construct,
        name = m.GetName Layout.objectsFirst := by
  have hsplit := constructModules_skips_failure ks1 ks2 k construct e hk
  refine ⟨hsplit, ?_⟩
  intro name hname
  rw [hsplit] at hname
  exact mem_keys_runRepetitions _ _ _ _ hname

/-- A module every construction of `c6Construct` succeeds with. -/
def c6Module : ModuleSpec :=
  ⟨fun _ => "c6name", fun _ => true, fun _ => 0, fun _ _ => 1⟩

/-- A factory that fails for key `1` and succeeds for every other key. -/
def c6Construct : Nat → Except String ModuleSpec := fun n =>
  if n = 1 then Except.error "unsupported model type" else Except.ok c6Module

theorem C6_construction_failure_isolated_witness :
    c6Construct 1 = Except.error "unsupported model type" ∧
    (constructModules ([0] ++ 1 :: [2]) c6Construct =
        constructModules ([0] ++ [2]) c6Construct ∧
      ∀ name ∈ (runRepetitions (constructModules ([0] ++ 1 :: [2]) c6Construct)
          1 1).map Prod.fst,
        ∃ m ∈ constructModules ([0] ++ [2]) c6Construct,
          name = m.GetName Layout.objectsFirst) :=
  ⟨by rfl,
    C6_construction_failure_isolated [0] [2] 1 c6Construct "unsupported model type" 1 1
      (by rfl)⟩

end ModelPerftest
